import Mathlib

/-!
Verification development for the Shebang development-portal server
(`web/server.py`).  The definitions below are shallow embeddings of the
Python functions of that file: the Markdown renderer
(`simple_markdown_to_html` and its regex passes), the per-project Kanban
store handlers (`add_kanban_task`, `move_kanban_task`,
`update_kanban_task`), the project store (`discover_projects`,
`create_new_project` slug derivation, `select_project`,
`get_active_project` / `set_active_project`).

Python dicts are modelled as association lists of string keys and string
values together with the dict lookup/insert/merge operations; the
filesystem state touched by the project store is modelled explicitly as a
record (pointer-file content plus the set of existing project subtrees).
Fallible handlers return `Except ApiError`; an `Except.error` result
models the handler answering with an HTTP error status before any file
is written back.
-/

namespace Shebang

/-- HTTP-level failures the handlers can answer with: `notFound` models a
404 response, `invalidInput` a 400 response for a missing/empty required
field. -/
inductive ApiError where
  | notFound
  | invalidInput
deriving DecidableEq, Repr

/-! ## Python dict model

`task` objects and `updates` payloads in `server.py` are Python dicts.
They are modelled as association lists; `pyGet` is `d.get(k)` / `d[k]`,
`pySet` is `d[k] = v` (replace in place if the key is present, append
otherwise, mirroring dict insertion-order semantics), and `pyUpdate` is
`d.update(u)`, which assigns every key of `u` in order. -/

abbrev PyDict := List (String × String)

/-- Dict lookup: value of the first matching key. -/
def pyGet : PyDict → String → Option String
  | [], _ => none
  | (k', v) :: rest, k => if k' = k then some v else pyGet rest k

/-- Dict assignment `d[k] = v`: replace the value of an existing key in
place, append the pair otherwise. -/
def pySet : PyDict → String → String → PyDict
  | [], k, v => [(k, v)]
  | (k', v') :: rest, k, v =>
      if k' = k then (k, v) :: rest else (k', v') :: pySet rest k v

/-- Dict merge `d.update(u)`: assign every key of `u` in order. -/
def pyUpdate (d : PyDict) (u : List (String × String)) : PyDict :=
  u.foldl (fun acc kv => pySet acc kv.1 kv.2) d

/-- Strip leading and trailing whitespace from a character list
(Python's `str.strip()`). -/
def trimChars (cs : List Char) : List Char :=
  ((cs.dropWhile Char.isWhitespace).reverse.dropWhile Char.isWhitespace).reverse

/-- Python's `str.strip()` on strings. -/
def pyStrip (s : String) : String := String.mk (trimChars s.toList)

/-! ## Kanban board model

The board JSON schema of `kanban.json`:
`lastUpdated` plus a list of columns, each with `id`, `name`, `color`
and an ordered task list.  Task objects are open dicts (see `PyDict`);
field values are modelled as strings. -/

abbrev KTask := PyDict

structure Column where
  id : String
  name : String
  color : String
  tasks : List KTask
deriving DecidableEq, Repr

structure Board where
  lastUpdated : String
  columns : List Column
deriving DecidableEq, Repr

/-- Total number of tasks held by all columns of the board. -/
def totalTasks (b : Board) : Nat :=
  (b.columns.map (fun c => c.tasks.length)).sum

/-- Number of tasks on the board whose `id` field equals `taskId`. -/
def countTasksWithId (b : Board) (taskId : String) : Nat :=
  (b.columns.map (fun c =>
    c.tasks.countP (fun t => pyGet t "id" == some taskId))).sum

/-- The column loop shared by `add_kanban_task` and the second half of
`move_kanban_task`: append the task to the first column whose `id`
matches `colId` (`break` afterwards); if no column matches, the task is
appended nowhere and the column list comes back unchanged. -/
def addTaskToColumns (colId : String) (t : KTask) : List Column → List Column
  | [] => []
  | c :: rest =>
      if c.id = colId then { c with tasks := c.tasks ++ [t] } :: rest
      else c :: addTaskToColumns colId t rest

/-- `add_kanban_task`: append the (already-built) task to the column
named by `colId`, then re-stamp `lastUpdated` and write the document
back.  The write happens, and the handler answers success, whether or
not any column matched. -/
def addKanbanTask (colId : String) (t : KTask) (now : String) (b : Board) : Board :=
  { lastUpdated := now, columns := addTaskToColumns colId t b.columns }

/-- The removal loop of `move_kanban_task`: scan the columns in order,
inside each the tasks in order, and remove the first task whose `id`
field equals `taskId`, returning it together with the remaining
columns. -/
def removeTaskFromTasks (taskId : String) : List KTask → Option (KTask × List KTask)
  | [] => none
  | t :: rest =>
      if pyGet t "id" = some taskId then some (t, rest)
      else (removeTaskFromTasks taskId rest).map (fun p => (p.1, t :: p.2))

def removeTaskFromColumns (taskId : String) : List Column → Option (KTask × List Column)
  | [] => none
  | c :: rest =>
      match removeTaskFromTasks taskId c.tasks with
      | some (t, ts) => some (t, { c with tasks := ts } :: rest)
      | none => (removeTaskFromColumns taskId rest).map (fun p => (p.1, c :: p.2))

/-- `move_kanban_task`: answer 400 when `taskId` or `targetCol` is the
empty (falsy) string; answer 404 when no task matches; otherwise remove
the first matching task, append it to the first column named
`targetCol` (appending nowhere when no column has that id), re-stamp
`lastUpdated` and write the board back. -/
def moveKanbanTask (taskId targetCol now : String) (b : Board) : Except ApiError Board :=
  if taskId = "" ∨ targetCol = "" then .error .invalidInput
  else
    match removeTaskFromColumns taskId b.columns with
    | none => .error .notFound
    | some (t, cols) =>
        .ok { lastUpdated := now, columns := addTaskToColumns targetCol t cols }

/-- The update loop of `update_kanban_task`: merge `u` into the first
task whose `id` field equals `taskId`, in place. -/
def updateTaskInTasks (taskId : String) (u : List (String × String)) :
    List KTask → Option (List KTask)
  | [] => none
  | t :: rest =>
      if pyGet t "id" = some taskId then some (pyUpdate t u :: rest)
      else (updateTaskInTasks taskId u rest).map (fun ts => t :: ts)

def updateTaskInColumns (taskId : String) (u : List (String × String)) :
    List Column → Option (List Column)
  | [] => none
  | c :: rest =>
      match updateTaskInTasks taskId u c.tasks with
      | some ts => some ({ c with tasks := ts } :: rest)
      | none => (updateTaskInColumns taskId u rest).map (fun cs => c :: cs)

/-- `update_kanban_task`: answer 400 when `taskId` is empty, 404 when no
task on the board carries that id (the board file is not rewritten in
either error case); otherwise merge the supplied fields into the located
task, re-stamp `lastUpdated` and write the board back. -/
def updateKanbanTask (taskId : String) (u : List (String × String)) (now : String)
    (b : Board) : Except ApiError Board :=
  if taskId = "" then .error .invalidInput
  else
    match updateTaskInColumns taskId u b.columns with
    | none => .error .notFound
    | some cols => .ok { lastUpdated := now, columns := cols }

/-! ## Project store model

`discover_projects`, `create_new_project` (slug derivation),
`select_project` and the active-project pointer file.  The filesystem is
modelled explicitly: the pointer file's content (`none` when the file is
absent) and the set of project names whose `projects/<name>/.shebang`
subtree exists. -/

/-- Whether a character survives `re.sub(r'[^a-z0-9-]', '', s)`. -/
def slugKeep (c : Char) : Bool :=
  (('a' ≤ c && c ≤ 'z') || ('0' ≤ c && c ≤ '9') || c = '-')

/-- The slug derivation of `create_new_project`:
`re.sub(r'[^a-z0-9-]', '', name.lower().replace(' ', '-'))` — lower-case
every character, turn each space into a hyphen, then delete every
remaining character outside `[a-z0-9-]`. -/
def createProjectSlug (name : String) : String :=
  let lowered := name.toList.map Char.toLower
  let hyphened := lowered.map (fun c => if c = ' ' then '-' else c)
  String.mk (hyphened.filter slugKeep)

/-- Modelled from the spec: the slug derivation as §4.2 words it, for
comparison with `createProjectSlug` — lower-case the name, collapse each
maximal run of non-alphanumeric characters to a single hyphen, trim
leading and trailing hyphens, and replace an empty result by a default
placeholder.  (This operation has no counterpart in `server.py`; it
exists only to exhibit where the source's slug differs from it.) -/
def specSlugCollapse (afterHyphen : Bool) : List Char → List Char
  | [] => []
  | c :: rest =>
      if ('a' ≤ c && c ≤ 'z') || ('0' ≤ c && c ≤ '9') then
        c :: specSlugCollapse false rest
      else if afterHyphen then specSlugCollapse true rest
      else '-' :: specSlugCollapse true rest

def specSlug (name : String) : String :=
  let collapsed := specSlugCollapse false (name.toList.map Char.toLower)
  let trimmed := ((collapsed.dropWhile (· = '-')).reverse.dropWhile (· = '-')).reverse
  if trimmed.isEmpty then "project" else String.mk trimmed

/-- YAML project configuration as read by `discover_projects`: each field
is `none` when `config.get` falls back to its default. -/
structure ConfigData where
  name : Option String
  description : Option String
  created : Option String
  tags : Option (List String)
deriving DecidableEq, Repr

/-- One entry of `PROJECTS_DIR.iterdir()`: the directory name, whether it
is a directory, whether `<dir>/.shebang` and `<dir>/.shebang/config.yaml`
exist, and the parse result of the config file (`none` models
`yaml.safe_load` raising or yielding something without `.get`, i.e. the
`except` branch). -/
structure DirEntry where
  nm : String
  isDir : Bool
  hasShebang : Bool
  hasConfig : Bool
  config : Option ConfigData
deriving DecidableEq, Repr

/-- One element of the list `discover_projects` returns. -/
structure ProjectEntry where
  id : String
  name : String
  description : String
  created : String
  tags : List String
deriving DecidableEq, Repr

/-- Ordering of directory entries by name, as `sorted(PROJECTS_DIR.iterdir())`
orders sibling paths. -/
def dirLE (a b : DirEntry) : Prop := a.nm ≤ b.nm

instance : DecidableRel dirLE := fun a b => inferInstanceAs (Decidable (a.nm ≤ b.nm))

instance : IsTotal DirEntry dirLE := ⟨fun a b => le_total a.nm b.nm⟩

instance : IsTrans DirEntry dirLE := ⟨fun _ _ _ h h' => le_trans h h'⟩

/-- The guard of the `discover_projects` loop body: only directories whose
`.shebang` subtree and `config.yaml` both exist contribute an entry. -/
def keepDir (e : DirEntry) : Bool := e.isDir && e.hasShebang && e.hasConfig

/-- The entry built for one kept directory: field defaults from
`config.get(...)` on success, and the fixed fallback entry (directory
name, empty description/created/tags) when reading the config raised. -/
def mkProjectEntry (e : DirEntry) : ProjectEntry :=
  match e.config with
  | some c =>
      { id := e.nm, name := c.name.getD e.nm, description := c.description.getD ""
        created := c.created.getD "", tags := c.tags.getD [] }
  | none =>
      { id := e.nm, name := e.nm, description := "", created := "", tags := [] }

/-- `discover_projects`: walk the directory entries sorted by name and
collect an entry for every kept directory. -/
def discoverProjects (entries : List DirEntry) : List ProjectEntry :=
  ((List.insertionSort dirLE entries).filter keepDir).map mkProjectEntry

/-- Filesystem state seen by the project-selection handlers: the content
of `web/data/active_project.txt` (`none` = file absent) and the names of
the projects whose `.shebang` subtree exists on disk. -/
structure ProjectStoreState where
  pointerFile : Option String
  existingProjects : List String
deriving DecidableEq, Repr

/-- `get_active_project`: the stripped pointer-file content, or the fixed
default identifier when the file is absent. -/
def getActiveProject (st : ProjectStoreState) : String :=
  match st.pointerFile with
  | some s => pyStrip s
  | none => "shebang-dev"

/-- `set_active_project`: overwrite the pointer file. -/
def setActiveProjectFile (projectName : String) (st : ProjectStoreState) : ProjectStoreState :=
  { st with pointerFile := some projectName }

/-- `select_project`: strip the supplied id, answer 400 when it is empty,
404 when the project's `.shebang` subtree does not exist (leaving the
pointer file untouched — no write happens on an error answer), and
otherwise overwrite the pointer file with the id. -/
def selectProject (projectId : String) (st : ProjectStoreState) :
    Except ApiError ProjectStoreState :=
  let pid := pyStrip projectId
  if pid = "" then .error .invalidInput
  else if pid ∈ st.existingProjects then .ok (setActiveProjectFile pid st)
  else .error .notFound

/-! ## Markdown renderer model

`simple_markdown_to_html` is a fixed sequence of whole-document text
substitutions.  Each regex pass is embedded as an executable function on
`List Char`.  The scanning passes (emphasis, code fences, inline code,
links, tables, bullet lists) advance through the text exactly as
`re.sub` does: find the leftmost match, emit the replacement, continue
scanning right after the matched region, and move one character forward
when no match starts at the current position.  Those scanners take a
fuel argument for structural termination; every step consumes at least
one character, so `length + 1` fuel is always sufficient and the fuel
case is never reached. -/

abbrev Chars := List Char

/-- The backtick character. -/
def btChar : Char := Char.ofNat 96

/-- Replace every occurrence of the single character `c` by `rep`
(`str.replace` with a one-character pattern). -/
def replaceChar (c : Char) (rep : Chars) : Chars → Chars
  | [] => []
  | d :: rest => (if d = c then rep else [d]) ++ replaceChar c rep rest

/-- The first pass: `html.replace('&', '&amp;').replace('<', '&lt;').replace('>', '&gt;')`. -/
def escapeHtml (cs : Chars) : Chars :=
  replaceChar '>' ("&gt;".toList)
    (replaceChar '<' ("&lt;".toList)
      (replaceChar '&' ("&amp;".toList) cs))

/-- Split on a separator character, keeping empty segments, like
Python's `str.split(sep)`. -/
def splitOnChar (sep : Char) : Chars → List Chars
  | [] => [[]]
  | c :: rest =>
      if c = sep then [] :: splitOnChar sep rest
      else
        match splitOnChar sep rest with
        | [] => [[c]]
        | l :: ls => (c :: l) :: ls

def splitLines (cs : Chars) : List Chars := splitOnChar '\n' cs

def joinLines (ls : List Chars) : Chars := List.intercalate ['\n'] ls

/-- Apply a line transformation to every line: a `re.sub` whose pattern
is anchored by `^...$` under `re.MULTILINE` acts on each line
independently. -/
def linePass (f : Chars → Chars) (cs : Chars) : Chars :=
  joinLines ((splitLines cs).map f)

/-- One heading pass, e.g. `re.sub(r'^# (.+)$', r'<h1>\1</h1>', ...)`:
a line starting with the marker and carrying at least one further
character is wrapped in the tag. -/
def headerLine (marker tagO tagC : Chars) (l : Chars) : Chars :=
  if marker.isPrefixOf l then
    if marker.length < l.length then tagO ++ l.drop marker.length ++ tagC
    else l
  else l

/-- `re.sub(r'^---+$', '<hr>', ...)`: a line of three or more hyphens and
nothing else. -/
def hrLine (l : Chars) : Chars :=
  if 3 ≤ l.length && l.all (· = '-') then "<hr>".toList else l

/-- `re.sub(r'^> (.+)$', r'<blockquote>\1</blockquote>', ...)` per line. -/
def bqLine (l : Chars) : Chars :=
  if ("> ".toList).isPrefixOf l then
    if 2 < l.length then
      "<blockquote>".toList ++ l.drop 2 ++ "</blockquote>".toList
    else l
  else l

/-- Lazy scan for `(.+?)` followed by `close` within one line: consume at
least one non-newline character, then stop at the earliest position
where `close` follows; `acc` holds the reversed content so far. -/
def goStop (close : Chars) (acc : Chars) : Chars → Option (Chars × Chars)
  | [] => none
  | c :: rest =>
      if close.isPrefixOf (c :: rest) then
        some (acc.reverse, (c :: rest).drop close.length)
      else if c = '\n' then none
      else goStop close (c :: acc) rest

def grabStop (close : Chars) : Chars → Option (Chars × Chars)
  | [] => none
  | c :: rest => if c = '\n' then none else goStop close [c] rest

/-- Lazy scan for `(.*?)` (DOTALL) followed by `close`: the content may
be empty and may span lines. -/
def goAll (close : Chars) (acc : Chars) : Chars → Option (Chars × Chars)
  | [] => if close.isEmpty then some (acc.reverse, []) else none
  | c :: rest =>
      if close.isPrefixOf (c :: rest) then
        some (acc.reverse, (c :: rest).drop close.length)
      else goAll close (c :: acc) rest

def grabAll (close : Chars) (cs : Chars) : Option (Chars × Chars) :=
  goAll close [] cs

/-- One emphasis pass, e.g. `re.sub(r'\*\*(.+?)\*\*', r'<strong>\1</strong>', ...)`:
`marker` is the star run, `pre`/`post` the replacement tags. -/
def subEmGo (marker pre post : Chars) : Nat → Chars → Chars
  | 0, cs => cs
  | _ + 1, [] => []
  | fuel + 1, c :: rest =>
      if marker.isPrefixOf (c :: rest) then
        match grabStop marker ((c :: rest).drop marker.length) with
        | some (content, rem) =>
            pre ++ content ++ post ++ subEmGo marker pre post fuel rem
        | none => c :: subEmGo marker pre post fuel rest
      else c :: subEmGo marker pre post fuel rest

def subEmPass (marker pre post : Chars) (cs : Chars) : Chars :=
  subEmGo marker pre post (cs.length + 1) cs

/-- A `\w` character: `[a-zA-Z0-9_]`. -/
def isWordChar (c : Char) : Bool := c.isAlphanum || c = '_'

/-- The three-backtick fence marker. -/
def fenceM : Chars := [btChar, btChar, btChar]

/-- Code-fence pass `re.sub(r'```(\w*)\n(.*?)```', r'<pre><code>\2</code></pre>', ..., re.DOTALL)`:
after an opening fence, a greedy word-character language tag (discarded)
must be followed directly by a newline, then the lazily-matched content
runs to the next fence. -/
def subFenceGo : Nat → Chars → Chars
  | 0, cs => cs
  | _ + 1, [] => []
  | fuel + 1, c :: rest =>
      if fenceM.isPrefixOf (c :: rest) then
        match (c :: rest).drop 3 |>.dropWhile isWordChar with
        | '\n' :: body =>
            match grabAll fenceM body with
            | some (content, rem) =>
                "<pre><code>".toList ++ content ++ "</code></pre>".toList
                  ++ subFenceGo fuel rem
            | none => c :: subFenceGo fuel rest
        | _ => c :: subFenceGo fuel rest
      else c :: subFenceGo fuel rest

def subFencePass (cs : Chars) : Chars := subFenceGo (cs.length + 1) cs

/-- Inline-code pass ``re.sub(r'`([^`]+)`', r'<code>\1</code>', ...)``:
a backtick, one or more non-backtick characters (newlines included),
and a closing backtick. -/
def subCodeGo : Nat → Chars → Chars
  | 0, cs => cs
  | _ + 1, [] => []
  | fuel + 1, c :: rest =>
      if c = btChar then
        let content := rest.takeWhile (· ≠ btChar)
        match rest.dropWhile (· ≠ btChar) with
        | _ :: rem =>
            if content.isEmpty then c :: subCodeGo fuel rest
            else "<code>".toList ++ content ++ "</code>".toList ++ subCodeGo fuel rem
        | [] => c :: subCodeGo fuel rest
      else c :: subCodeGo fuel rest

def subCodePass (cs : Chars) : Chars := subCodeGo (cs.length + 1) cs

/-- Link pass `re.sub(r'\[([^\]]+)\]\(([^)]+)\)', r'<a href="\2">\1</a>', ...)`. -/
def subLinkGo : Nat → Chars → Chars
  | 0, cs => cs
  | _ + 1, [] => []
  | fuel + 1, c :: rest =>
      if c = '[' then
        let txt := rest.takeWhile (· ≠ ']')
        match rest.dropWhile (· ≠ ']') with
        | _ :: r2 =>
            if txt.isEmpty then c :: subLinkGo fuel rest
            else
              match r2 with
              | '(' :: r3 =>
                  let url := r3.takeWhile (· ≠ ')')
                  match r3.dropWhile (· ≠ ')') with
                  | _ :: r5 =>
                      if url.isEmpty then c :: subLinkGo fuel rest
                      else
                        "<a href=\"".toList ++ url ++ "\">".toList ++ txt
                          ++ "</a>".toList ++ subLinkGo fuel r5
                  | [] => c :: subLinkGo fuel rest
              | _ => c :: subLinkGo fuel rest
        | [] => c :: subLinkGo fuel rest
      else c :: subLinkGo fuel rest

def subLinkPass (cs : Chars) : Chars := subLinkGo (cs.length + 1) cs

/-! ### Table pass

`re.sub(r'(\|.+\|\n)+', convert_table, html)`.  One repetition unit
`\|.+\|\n` matches, within a single line that ends with a newline, from
some `|` to a `|` that is the last character of the line, with at least
one character in between.  Hence a match can only start on a line whose
last character is `|` and whose first `|` lies at least two characters
before it (the leftmost match starts at that first `|`, leaving the
preceding prefix of the line in place), and it continues over the
following lines that start and end with `|` (length at least 3) and end
with a newline. -/

/-- Lines of the working text, each tagged with whether a newline
follows it in the text (the final segment has none). -/
def annotateLines : List Chars → List (Chars × Bool)
  | [] => []
  | [l] => [(l, false)]
  | l :: rest => (l, true) :: annotateLines rest

/-- Can a `(\|.+\|\n)+` match start on this line (newline presence is
checked by the caller)? -/
def startTableOK (l : Chars) : Bool :=
  let tl := l.dropWhile (· ≠ '|')
  3 ≤ tl.length && tl.getLast? == some '|'

/-- Can this line continue a table match: it must start and end with `|`
with at least one character in between. -/
def contTableOK (l : Chars) : Bool :=
  3 ≤ l.length && l.head? == some '|' && l.getLast? == some '|'

/-- Pipe-split, strip, and drop empty cells:
`[cell.strip() for cell in line.split('|') if cell.strip()]`. -/
def tableCells (l : Chars) : List Chars :=
  ((splitOnChar '|' l).map trimChars).filter (fun c => !c.isEmpty)

/-- `convert_table`: strip the matched region, split into lines; fewer
than two lines are returned unchanged; otherwise line 1 supplies the
header cells, line 2 is discarded, and the remaining lines supply the
body rows (rows with no surviving cells are skipped). -/
def convertTable (matched : Chars) : Chars :=
  let ls := splitOnChar '\n' (trimChars matched)
  if ls.length < 2 then matched
  else
    let headerCells := tableCells (ls.headD [])
    let bodyRows := ls.drop 2
    let pieces :=
      ["<table>".toList, "<thead><tr>".toList]
        ++ headerCells.map (fun h => "<th>".toList ++ h ++ "</th>".toList)
        ++ ["</tr></thead>".toList, "<tbody>".toList]
        ++ bodyRows.foldr (fun line acc =>
            let cells := tableCells line
            if cells.isEmpty then acc
            else
              ("<tr>".toList :: cells.map (fun c => "<td>".toList ++ c ++ "</td>".toList))
                ++ ("</tr>".toList :: acc)) []
        ++ ["</tbody></table>".toList]
    joinLines pieces

/-- Rebuild the text from annotated lines (fuel-exhaustion fallback of
`tableGo`; never reached). -/
def joinAnnotated (ls : List (Chars × Bool)) : Chars :=
  ls.foldr (fun p acc => p.1 ++ (if p.2 then '\n' :: acc else acc)) []

def tableGo : Nat → List (Chars × Bool) → Chars
  | 0, ls => joinAnnotated ls
  | _ + 1, [] => []
  | fuel + 1, (l, nl) :: rest =>
      if nl && startTableOK l then
        let pre := l.takeWhile (· ≠ '|')
        let tl := l.dropWhile (· ≠ '|')
        let contL := rest.takeWhile (fun p => p.2 && contTableOK p.1)
        let rest2 := rest.dropWhile (fun p => p.2 && contTableOK p.1)
        let matched := tl ++ '\n' :: contL.foldr (fun p acc => p.1 ++ '\n' :: acc) []
        pre ++ convertTable matched ++ tableGo fuel rest2
      else l ++ (if nl then '\n' :: tableGo fuel rest else tableGo fuel rest)

def tablePass (cs : Chars) : Chars :=
  let ls := annotateLines (splitLines cs)
  tableGo (ls.length + 1) ls

/-! ### Unordered-list pass

`re.sub(r'(^[\s]*[-*] .+\n?)+', convert_ul, html, flags=re.MULTILINE)`.
One unit, anchored at a line start, greedily consumes whitespace (which
may span newlines), then a bullet (`-` or `*`) followed by a space and a
non-empty rest of line, then an optional newline. -/

/-- One `^[\s]*[-*] .+\n?` unit at the current (line-start) position:
returns the matched characters and the remaining text. -/
def ulUnit (cs : Chars) : Option (Chars × Chars) :=
  let ws := cs.takeWhile Char.isWhitespace
  match cs.dropWhile Char.isWhitespace with
  | b :: ' ' :: r2 =>
      if b = '-' ∨ b = '*' then
        let content := r2.takeWhile (· ≠ '\n')
        if content.isEmpty then none
        else
          match r2.dropWhile (· ≠ '\n') with
          | '\n' :: r4 => some (ws ++ b :: ' ' :: content ++ ['\n'], r4)
          | r3 => some (ws ++ b :: ' ' :: content, r3)
      else none
  | _ => none

/-- The greedy `( ... )+` repetition of units. -/
def ulRunGo : Nat → Chars → Option (Chars × Chars)
  | 0, _ => none
  | fuel + 1, cs =>
      match ulUnit cs with
      | none => none
      | some (m, rest) =>
          match ulRunGo fuel rest with
          | some (m2, rem) => some (m ++ m2, rem)
          | none => some (m, rest)

def ulRun (cs : Chars) : Option (Chars × Chars) := ulRunGo (cs.length + 1) cs

/-- The bullet strip inside `convert_ul`:
`re.sub(r'^[\s]*[-*] ', '', item)` (no MULTILINE: anchored at the item
start only). -/
def stripBullet (item : Chars) : Chars :=
  match item.dropWhile Char.isWhitespace with
  | b :: ' ' :: rest2 => if b = '-' ∨ b = '*' then rest2 else item
  | _ => item

/-- `convert_ul`: strip the matched region, split into lines, strip each
line's bullet, and wrap the non-empty results in `<li>` inside one
`<ul>`. -/
def convertUl (matched : Chars) : Chars :=
  let items := splitOnChar '\n' (trimChars matched)
  let lis := items.foldr (fun item acc =>
    let t := stripBullet item
    if t.isEmpty then acc else ("<li>".toList ++ t ++ "</li>".toList) :: acc) []
  joinLines ("<ul>".toList :: lis ++ ["</ul>".toList])

/-- Scan the text line start by line start; at each, try the greedy run
of bullet units, otherwise pass the line through. -/
def ulGoAux : Nat → Chars → Chars
  | 0, cs => cs
  | _ + 1, [] => []
  | fuel + 1, cs =>
      match ulRun cs with
      | some (m, rem) => convertUl m ++ ulGoAux fuel rem
      | none =>
          let line := cs.takeWhile (· ≠ '\n')
          match cs.dropWhile (· ≠ '\n') with
          | '\n' :: r2 => line ++ '\n' :: ulGoAux fuel r2
          | _ => cs

def ulPass (cs : Chars) : Chars := ulGoAux (cs.length + 1) cs

/-- The final paragraph-wrapping loop: group runs of non-blank lines that
do not start (after stripping) with `<` into `<p> ... </p>`, pass blank
lines and tag lines through, closing any open paragraph. -/
def paraGo : List Chars → Bool → List Chars
  | [], inP => if inP then ["</p>".toList] else []
  | l :: rest, inP =>
      let st := trimChars l
      if st.isEmpty then
        (if inP then ["</p>".toList, ([] : Chars)] else [([] : Chars)]) ++ paraGo rest false
      else if st.head? == some '<' then
        (if inP then ["</p>".toList, l] else [l]) ++ paraGo rest false
      else
        (if inP then [l] else ["<p>".toList, l]) ++ paraGo rest true

def paraPass (cs : Chars) : Chars := joinLines (paraGo (splitLines cs) false)

/-- Whether `pat` occurs as a contiguous substring of `s`. -/
def containsSub (pat : Chars) : Chars → Bool
  | [] => pat.isEmpty
  | c :: rest => pat.isPrefixOf (c :: rest) || containsSub pat rest

/-- `simple_markdown_to_html`: the full ordered pipeline. -/
def simpleMarkdownToHtml (md : String) : String :=
  let h := escapeHtml md.toList
  let h := linePass (headerLine ("#### ".toList) ("<h4>".toList) ("</h4>".toList)) h
  let h := linePass (headerLine ("### ".toList) ("<h3>".toList) ("</h3>".toList)) h
  let h := linePass (headerLine ("## ".toList) ("<h2>".toList) ("</h2>".toList)) h
  let h := linePass (headerLine ("# ".toList) ("<h1>".toList) ("</h1>".toList)) h
  let h := subEmPass (List.replicate 3 '*') ("<strong><em>".toList) ("</em></strong>".toList) h
  let h := subEmPass (List.replicate 2 '*') ("<strong>".toList) ("</strong>".toList) h
  let h := subEmPass (List.replicate 1 '*') ("<em>".toList) ("</em>".toList) h
  let h := subFencePass h
  let h := subCodePass h
  let h := subLinkPass h
  let h := linePass hrLine h
  let h := tablePass h
  let h := ulPass h
  let h := linePass bqLine h
  let h := paraPass h
  String.mk h

/-! ## Concrete fixtures -/

/-- A small board in the `kanban.json` schema: one task `t1` sitting in
`backlog`, with the canonical template columns. -/
def kanbanExampleBoard : Board :=
  { lastUpdated := "2024-01-01T10:00:00"
    columns :=
      [ { id := "backlog", name := "BACKLOG", color := "accent"
          tasks := [[("id", "t1"), ("title", "Fix bug"), ("created", "2024-01-01T09:00:00")]] },
        { id := "in_progress", name := "IN PROGRESS", color := "warning", tasks := [] },
        { id := "done", name := "DONE", color := "success", tasks := [] } ] }

/-! ## Theorems -/

/-- **C1.** The code violates the one-column invariant when the target
column does not exist: `move_kanban_task` first removes the matching
task from its source column and only then looks for the target column;
when no column has the target id the removed task is appended nowhere,
so it vanishes from the board (it belongs to zero columns and the total
task count drops by one), while the handler still answers success.
Concretely, moving `t1` (sitting in `backlog`) to the nonexistent column
`nonexistent` yields a board with no tasks at all. -/
theorem moveTask_invalid_target_orphans_task :
    moveKanbanTask "t1" "nonexistent" "2024-01-02T00:00:00" kanbanExampleBoard =
      .ok { lastUpdated := "2024-01-02T00:00:00"
            columns :=
              [ { id := "backlog", name := "BACKLOG", color := "accent", tasks := [] },
                { id := "in_progress", name := "IN PROGRESS", color := "warning", tasks := [] },
                { id := "done", name := "DONE", color := "success", tasks := [] } ] }
    ∧ totalTasks kanbanExampleBoard = 1
    ∧ countTasksWithId kanbanExampleBoard "t1" = 1
    ∧ (∀ b', moveKanbanTask "t1" "nonexistent" "2024-01-02T00:00:00" kanbanExampleBoard =
        .ok b' → totalTasks b' = 0 ∧ countTasksWithId b' "t1" = 0) := by
  have hmain : moveKanbanTask "t1" "nonexistent" "2024-01-02T00:00:00" kanbanExampleBoard =
      .ok { lastUpdated := "2024-01-02T00:00:00"
            columns :=
              [ { id := "backlog", name := "BACKLOG", color := "accent", tasks := [] },
                { id := "in_progress", name := "IN PROGRESS", color := "warning", tasks := [] },
                { id := "done", name := "DONE", color := "success", tasks := [] } ] } := rfl
  refine ⟨hmain, by decide, by decide, ?_⟩
  intro b' h
  injection h.symm.trans hmain with hb
  subst hb
  exact ⟨by decide, by decide⟩

/-- **C2.** The blockquote pass is dead code: entity escaping runs first
and rewrites every `>` to `&gt;`, so no line of the working text ever
again starts with the two characters `> ` when the blockquote
substitution runs, and a source line `> hello` is paragraph-wrapped as
escaped text instead of becoming a `<blockquote>` element. -/
theorem blockquote_line_is_never_wrapped :
    simpleMarkdownToHtml "> hello" = "<p>\n&gt; hello\n</p>"
    ∧ containsSub ("<blockquote>".toList) (simpleMarkdownToHtml "> hello").toList = false := by
  constructor
  · rfl
  · decide

/-- **C3 (counterexample).** On the spec's own table input
`"A | B\n---|---\n1 | 2\n"` the table pass produces no table at all: the
pattern `(\|.+\|\n)+` only matches lines whose last character is `|`,
and none of these lines ends with `|`, so the whole input falls through
to paragraph wrapping. -/
theorem table_spec_input_produces_no_table :
    simpleMarkdownToHtml "A | B\n---|---\n1 | 2\n" = "<p>\nA | B\n---|---\n1 | 2\n</p>\n"
    ∧ containsSub ("<table>".toList)
        (simpleMarkdownToHtml "A | B\n---|---\n1 | 2\n").toList = false := by
  constructor
  · rfl
  · decide

/-- **C3 (amended).** A contiguous run of lines that each start and end
with `|` is interpreted as one table: line 1 becomes the header row,
line 2 is discarded as the separator, and the remaining lines become
body rows with pipe-delimited, trimmed cells.  The pipe-delimited
variant of the spec's input yields exactly one `<table>` with header
cells `A`,`B` and one body row with cells `1`,`2`. -/
theorem table_pipe_delimited_input_renders :
    simpleMarkdownToHtml "| A | B |\n|---|---|\n| 1 | 2 |\n" =
      "<table>\n<thead><tr>\n<th>A</th>\n<th>B</th>\n</tr></thead>\n<tbody>\n<tr>\n<td>1</td>\n<td>2</td>\n</tr>\n</tbody></table>" := by
  rfl

/-- **C4.** Heading conversion runs before the code-fence pass, so a
fence-content line `# not a heading` has already been rewritten to
`<h1>not a heading</h1>` by the time the fence is converted, and the
rendered `<pre><code>` block contains a literal `<h1>` element. -/
theorem fenced_hash_line_becomes_h1 :
    simpleMarkdownToHtml "```\n# not a heading\n```\n" =
      "<pre><code><h1>not a heading</h1>\n</code></pre>\n"
    ∧ containsSub ("<h1>not a heading</h1>".toList)
        (simpleMarkdownToHtml "```\n# not a heading\n```\n").toList = true := by
  constructor
  · rfl
  · decide

/-- **C5 (counterexample).** The slug derivation does not collapse runs
of non-alphanumeric characters: the name `"a  b"` (two spaces) yields
`a--b` with a duplicate hyphen, while the spec's described derivation
(`specSlug`) yields `a-b`. -/
theorem slug_does_not_collapse_runs :
    createProjectSlug "a  b" = "a--b"
    ∧ specSlug "a  b" = "a-b"
    ∧ createProjectSlug "a  b" ≠ specSlug "a  b" := by
  refine ⟨rfl, rfl, ?_⟩
  decide

/-- **C5 (amended).** The slug is the name lower-cased, with every space
replaced by a hyphen and every remaining character outside `[a-z0-9-]`
deleted; runs are not collapsed (`"a  b"` gives `a--b`), leading and
trailing hyphens are not trimmed (`"- x"` gives `--x`), and an empty
result is not replaced by a placeholder (`"!!!"` gives the empty slug);
the spec's example `"My Cool App!!"` still yields exactly
`my-cool-app`. -/
theorem slug_examples :
    createProjectSlug "My Cool App!!" = "my-cool-app"
    ∧ createProjectSlug "a  b" = "a--b"
    ∧ createProjectSlug "- x" = "--x"
    ∧ createProjectSlug "!!!" = "" := by
  exact ⟨rfl, rfl, rfl, rfl⟩

/-! ### Dict lemmas -/

theorem pyGet_pySet_self (d : PyDict) (k v : String) :
    pyGet (pySet d k v) k = some v := by
  induction d with
  | nil => simp [pySet, pyGet]
  | cons kv rest ih =>
      obtain ⟨k', v'⟩ := kv
      by_cases h : k' = k
      · simp [pySet, h, pyGet]
      · simp [pySet, h, pyGet, ih]

theorem pyGet_pySet_other (d : PyDict) (k v k' : String) (h : k' ≠ k) :
    pyGet (pySet d k v) k' = pyGet d k' := by
  induction d with
  | nil =>
      simp only [pySet, pyGet]
      rw [if_neg fun hh => h (Eq.symm hh)]
  | cons kv rest ih =>
      obtain ⟨k0, v0⟩ := kv
      by_cases h0 : k0 = k
      · subst h0
        simp only [pySet, if_pos rfl, pyGet]
        rw [if_neg fun hh => h (Eq.symm hh), if_neg fun hh => h (Eq.symm hh)]
      · simp only [pySet, if_neg h0, pyGet, ih]

theorem pyGet_pyUpdate_notMem (d : PyDict) (u : List (String × String)) (k : String) :
    k ∉ u.map Prod.fst → pyGet (pyUpdate d u) k = pyGet d k := by
  induction u generalizing d with
  | nil => intro _; rfl
  | cons kv rest ih =>
      intro h
      simp only [List.map_cons, List.mem_cons, not_or] at h
      have step : pyUpdate d (kv :: rest) = pyUpdate (pySet d kv.1 kv.2) rest := rfl
      rw [step, ih _ h.2, pyGet_pySet_other _ _ _ _ h.1]

theorem pyGet_pyUpdate_mem (d : PyDict) (u : List (String × String)) (k v : String) :
    (k, v) ∈ u → (u.map Prod.fst).Nodup → pyGet (pyUpdate d u) k = some v := by
  induction u generalizing d with
  | nil => intro hmem _; cases hmem
  | cons kv rest ih =>
      intro hmem hnd
      have hnd' : kv.1 ∉ rest.map Prod.fst ∧ (rest.map Prod.fst).Nodup := by
        rw [List.map_cons] at hnd
        exact List.nodup_cons.mp hnd
      have step : pyUpdate d (kv :: rest) = pyUpdate (pySet d kv.1 kv.2) rest := rfl
      rcases List.mem_cons.mp hmem with heq | htail
      · subst heq
        have hk : k ∉ rest.map Prod.fst := hnd'.1
        rw [step, pyGet_pyUpdate_notMem _ _ _ hk]
        exact pyGet_pySet_self d k v
      · rw [step]
        exact ih (pySet d kv.1 kv.2) htail hnd'.2

/-! ### Column-loop lemmas -/

theorem addTaskToColumns_notFound (colId : String) (t : KTask) (cols : List Column)
    (h : ∀ c ∈ cols, c.id ≠ colId) : addTaskToColumns colId t cols = cols := by
  induction cols with
  | nil => rfl
  | cons c rest ih =>
      have hc : c.id ≠ colId := h c (by simp)
      simp only [addTaskToColumns, if_neg hc]
      rw [ih fun c' hc' => h c' (by simp [hc'])]

theorem addTaskToColumns_found (colId : String) (t : KTask)
    (pre : List Column) (col : Column) (post : List Column)
    (hpre : ∀ c ∈ pre, c.id ≠ colId) (hcol : col.id = colId) :
    addTaskToColumns colId t (pre ++ col :: post) =
      pre ++ { col with tasks := col.tasks ++ [t] } :: post := by
  induction pre with
  | nil => simp [addTaskToColumns, hcol]
  | cons c rest ih =>
      have hc : c.id ≠ colId := hpre c (by simp)
      have ih' := ih fun c' hc' => hpre c' (by simp [hc'])
      simp only [List.cons_append, addTaskToColumns, if_neg hc]
      exact congrArg (fun l => c :: l) ih'

theorem updateTaskInTasks_notFound (taskId : String) (u : List (String × String))
    (ts : List KTask) (h : ∀ t ∈ ts, pyGet t "id" ≠ some taskId) :
    updateTaskInTasks taskId u ts = none := by
  induction ts with
  | nil => rfl
  | cons t rest ih =>
      have ht : pyGet t "id" ≠ some taskId := h t (by simp)
      simp only [updateTaskInTasks, if_neg ht]
      rw [ih fun t' ht' => h t' (by simp [ht'])]
      rfl

theorem updateTaskInTasks_found (taskId : String) (u : List (String × String))
    (preT : List KTask) (t : KTask) (postT : List KTask)
    (hpre : ∀ t' ∈ preT, pyGet t' "id" ≠ some taskId)
    (ht : pyGet t "id" = some taskId) :
    updateTaskInTasks taskId u (preT ++ t :: postT) =
      some (preT ++ pyUpdate t u :: postT) := by
  induction preT with
  | nil => simp [updateTaskInTasks, ht]
  | cons t0 rest ih =>
      have h0 : pyGet t0 "id" ≠ some taskId := hpre t0 (by simp)
      have ih' := ih fun t' ht' => hpre t' (by simp [ht'])
      simp only [List.cons_append, updateTaskInTasks, if_neg h0]
      exact (congrArg (Option.map fun ts => t0 :: ts) ih').trans rfl

theorem updateTaskInColumns_notFound (taskId : String) (u : List (String × String))
    (cols : List Column) (h : ∀ c ∈ cols, ∀ t ∈ c.tasks, pyGet t "id" ≠ some taskId) :
    updateTaskInColumns taskId u cols = none := by
  induction cols with
  | nil => rfl
  | cons c rest ih =>
      simp only [updateTaskInColumns,
        updateTaskInTasks_notFound taskId u c.tasks (h c (by simp))]
      rw [ih fun c' hc' => h c' (by simp [hc'])]
      rfl

theorem updateTaskInColumns_found (taskId : String) (u : List (String × String))
    (preC : List Column) (col : Column) (postC : List Column)
    (preT : List KTask) (t : KTask) (postT : List KTask)
    (hpreC : ∀ c ∈ preC, ∀ t' ∈ c.tasks, pyGet t' "id" ≠ some taskId)
    (htasks : col.tasks = preT ++ t :: postT)
    (hpreT : ∀ t' ∈ preT, pyGet t' "id" ≠ some taskId)
    (ht : pyGet t "id" = some taskId) :
    updateTaskInColumns taskId u (preC ++ col :: postC) =
      some (preC ++ { col with tasks := preT ++ pyUpdate t u :: postT } :: postC) := by
  induction preC with
  | nil =>
      simp only [List.nil_append, updateTaskInColumns, htasks,
        updateTaskInTasks_found taskId u preT t postT hpreT ht]
  | cons c rest ih =>
      have hc : updateTaskInTasks taskId u c.tasks = none :=
        updateTaskInTasks_notFound taskId u c.tasks (hpreC c (by simp))
      have ih' := ih fun c' hc' => hpreC c' (by simp [hc'])
      simp only [List.cons_append, updateTaskInColumns, hc]
      exact (congrArg (Option.map fun cs => c :: cs) ih').trans rfl

/-! ### Claim theorems C6-C10 -/

/-- **C6.** `add_kanban_task` appends the task to the first column whose
id matches and leaves every other column untouched; when no column
matches, no column's task list changes at all and the handler still
answers success (the board is merely re-stamped). -/
theorem addTask_silent_drop_or_append (colId : String) (t : KTask) (now : String)
    (b : Board) :
    ((∀ c ∈ b.columns, c.id ≠ colId) → (addKanbanTask colId t now b).columns = b.columns)
    ∧ (∀ pre col post, b.columns = pre ++ col :: post → col.id = colId →
        (∀ c ∈ pre, c.id ≠ colId) →
        (addKanbanTask colId t now b).columns =
          pre ++ { col with tasks := col.tasks ++ [t] } :: post) := by
  constructor
  · intro h
    simp only [addKanbanTask]
    exact addTaskToColumns_notFound colId t b.columns h
  · intro pre col post hcols hcol hpre
    simp only [addKanbanTask, hcols]
    exact addTaskToColumns_found colId t pre col post hpre hcol

theorem addTask_silent_drop_or_append_witness :
    (addKanbanTask "nope" [("id", "t9")] "2024-02-01" kanbanExampleBoard).columns =
      kanbanExampleBoard.columns
    ∧ (addKanbanTask "backlog" [("id", "t9")] "2024-02-01" kanbanExampleBoard).columns =
        [ { id := "backlog", name := "BACKLOG", color := "accent"
            tasks := [[("id", "t1"), ("title", "Fix bug"), ("created", "2024-01-01T09:00:00")],
              [("id", "t9")]] },
          { id := "in_progress", name := "IN PROGRESS", color := "warning", tasks := [] },
          { id := "done", name := "DONE", color := "success", tasks := [] } ] :=
  ⟨(addTask_silent_drop_or_append "nope" [("id", "t9")] "2024-02-01" kanbanExampleBoard).1
      (by decide),
   (addTask_silent_drop_or_append "backlog" [("id", "t9")] "2024-02-01" kanbanExampleBoard).2
      []
      { id := "backlog", name := "BACKLOG", color := "accent"
        tasks := [[("id", "t1"), ("title", "Fix bug"), ("created", "2024-01-01T09:00:00")]] }
      [ { id := "in_progress", name := "IN PROGRESS", color := "warning", tasks := [] },
        { id := "done", name := "DONE", color := "success", tasks := [] } ]
      rfl rfl (by simp)⟩

/-- **C7.** `update_kanban_task` performs a shallow merge into the first
task whose id matches: the located task is replaced in place by the dict
merge `task.update(updates)`, every other task and column is unchanged,
every key absent from the updates keeps its old value, and every
supplied key (with distinct keys, as in a parsed JSON object) takes the
supplied value; when no task on the board matches, the handler answers
404 and the board file is not rewritten. -/
theorem updateTask_shallow_merge (b : Board) (taskId : String)
    (u : List (String × String)) (now : String) (hid : taskId ≠ "") :
    ((∀ c ∈ b.columns, ∀ t ∈ c.tasks, pyGet t "id" ≠ some taskId) →
        updateKanbanTask taskId u now b = .error .notFound)
    ∧ (∀ preC col postC preT t postT,
        b.columns = preC ++ col :: postC →
        col.tasks = preT ++ t :: postT →
        (∀ c ∈ preC, ∀ t' ∈ c.tasks, pyGet t' "id" ≠ some taskId) →
        (∀ t' ∈ preT, pyGet t' "id" ≠ some taskId) →
        pyGet t "id" = some taskId →
        updateKanbanTask taskId u now b =
          .ok { lastUpdated := now
                columns := preC ++ { col with tasks := preT ++ pyUpdate t u :: postT } :: postC }
        ∧ (∀ k, k ∉ u.map Prod.fst → pyGet (pyUpdate t u) k = pyGet t k)
        ∧ (∀ k v, (k, v) ∈ u → (u.map Prod.fst).Nodup →
            pyGet (pyUpdate t u) k = some v)) := by
  constructor
  · intro h
    simp only [updateKanbanTask, if_neg hid]
    rw [updateTaskInColumns_notFound taskId u b.columns h]
  · intro preC col postC preT t postT hcols htasks hpreC hpreT ht
    refine ⟨?_, ?_, ?_⟩
    · simp only [updateKanbanTask, if_neg hid, hcols]
      rw [updateTaskInColumns_found taskId u preC col postC preT t postT hpreC htasks hpreT ht]
    · intro k hk
      exact pyGet_pyUpdate_notMem t u k hk
    · intro k v hkv hnd
      exact pyGet_pyUpdate_mem t u k v hkv hnd

theorem updateTask_shallow_merge_witness :
    updateKanbanTask "t1" [("title", "X")] "2024-02-02" kanbanExampleBoard =
      .ok { lastUpdated := "2024-02-02"
            columns :=
              [ { id := "backlog", name := "BACKLOG", color := "accent"
                  tasks := [[("id", "t1"), ("title", "X"), ("created", "2024-01-01T09:00:00")]] },
                { id := "in_progress", name := "IN PROGRESS", color := "warning", tasks := [] },
                { id := "done", name := "DONE", color := "success", tasks := [] } ] }
    ∧ pyGet (pyUpdate [("id", "t1"), ("title", "Fix bug"), ("created", "2024-01-01T09:00:00")]
        [("title", "X")]) "id" = some "t1"
    ∧ pyGet (pyUpdate [("id", "t1"), ("title", "Fix bug"), ("created", "2024-01-01T09:00:00")]
        [("title", "X")]) "created" = some "2024-01-01T09:00:00" := by
  have h := (updateTask_shallow_merge kanbanExampleBoard "t1" [("title", "X")] "2024-02-02"
      (by decide)).2
      []
      { id := "backlog", name := "BACKLOG", color := "accent"
        tasks := [[("id", "t1"), ("title", "Fix bug"), ("created", "2024-01-01T09:00:00")]] }
      [ { id := "in_progress", name := "IN PROGRESS", color := "warning", tasks := [] },
        { id := "done", name := "DONE", color := "success", tasks := [] } ]
      [] [("id", "t1"), ("title", "Fix bug"), ("created", "2024-01-01T09:00:00")] []
      rfl rfl (by simp) (by simp) rfl
  refine ⟨h.1, ?_, ?_⟩
  · exact h.2.1 "id" (by decide)
  · exact h.2.1 "created" (by decide)

/-- **C9.** No field of a task is protected against `update_kanban_task`:
`task.update(updates)` assigns every supplied key, so a caller-supplied
`id` (or `created`) key overwrites the task's identifier (or creation
timestamp) with the caller's value in the board that is written back. -/
theorem updateTask_overwrites_any_field (b : Board) (taskId : String)
    (u : List (String × String)) (now k v : String)
    (preC : List Column) (col : Column) (postC : List Column)
    (preT : List KTask) (t : KTask) (postT : List KTask)
    (hid : taskId ≠ "")
    (hcols : b.columns = preC ++ col :: postC)
    (htasks : col.tasks = preT ++ t :: postT)
    (hpreC : ∀ c ∈ preC, ∀ t' ∈ c.tasks, pyGet t' "id" ≠ some taskId)
    (hpreT : ∀ t' ∈ preT, pyGet t' "id" ≠ some taskId)
    (ht : pyGet t "id" = some taskId)
    (hnd : (u.map Prod.fst).Nodup)
    (hkv : (k, v) ∈ u) :
    updateKanbanTask taskId u now b =
      .ok { lastUpdated := now
            columns := preC ++ { col with tasks := preT ++ pyUpdate t u :: postT } :: postC }
    ∧ pyGet (pyUpdate t u) k = some v := by
  constructor
  · simp only [updateKanbanTask, if_neg hid, hcols]
    rw [updateTaskInColumns_found taskId u preC col postC preT t postT hpreC htasks hpreT ht]
  · exact pyGet_pyUpdate_mem t u k v hkv hnd

theorem updateTask_overwrites_any_field_witness :
    updateKanbanTask "t1" [("id", "hijacked")] "2024-02-03" kanbanExampleBoard =
      .ok { lastUpdated := "2024-02-03"
            columns :=
              [ { id := "backlog", name := "BACKLOG", color := "accent"
                  tasks := [[("id", "hijacked"), ("title", "Fix bug"),
                    ("created", "2024-01-01T09:00:00")]] },
                { id := "in_progress", name := "IN PROGRESS", color := "warning", tasks := [] },
                { id := "done", name := "DONE", color := "success", tasks := [] } ] }
    ∧ pyGet (pyUpdate [("id", "t1"), ("title", "Fix bug"), ("created", "2024-01-01T09:00:00")]
        [("id", "hijacked")]) "id" = some "hijacked" :=
  updateTask_overwrites_any_field kanbanExampleBoard "t1" [("id", "hijacked")]
    "2024-02-03" "id" "hijacked"
    []
    { id := "backlog", name := "BACKLOG", color := "accent"
      tasks := [[("id", "t1"), ("title", "Fix bug"), ("created", "2024-01-01T09:00:00")]] }
    [ { id := "in_progress", name := "IN PROGRESS", color := "warning", tasks := [] },
      { id := "done", name := "DONE", color := "success", tasks := [] } ]
    [] [("id", "t1"), ("title", "Fix bug"), ("created", "2024-01-01T09:00:00")] []
    (by decide) rfl rfl (by simp) (by simp) rfl (by simp) (by simp)

/-- **C8.** `select_project` on a well-formed (stripped, non-empty)
project id: when the project's `.shebang` subtree does not exist the
handler answers 404 and performs no write (the pointer file keeps its
previous content); when it exists the pointer file is overwritten with
the id, and `get_active_project` subsequently reads that id back. -/
theorem selectProject_spec (id : String) (st : ProjectStoreState)
    (h1 : pyStrip id = id) (h2 : id ≠ "") :
    (id ∉ st.existingProjects → selectProject id st = .error .notFound)
    ∧ (id ∈ st.existingProjects →
        selectProject id st = .ok { st with pointerFile := some id }
        ∧ getActiveProject { st with pointerFile := some id } = id) := by
  constructor
  · intro h
    simp only [selectProject, h1, if_neg h2]
    simp [h]
  · intro h
    refine ⟨?_, ?_⟩
    · simp only [selectProject, h1, if_neg h2]
      simp [h, setActiveProjectFile]
    · simp only [getActiveProject]
      exact h1

theorem selectProject_spec_witness :
    selectProject "alpha" { pointerFile := some "old", existingProjects := ["beta"] } =
      .error .notFound
    ∧ selectProject "alpha" { pointerFile := some "old", existingProjects := ["alpha", "beta"] } =
        .ok { pointerFile := some "alpha", existingProjects := ["alpha", "beta"] }
    ∧ getActiveProject { pointerFile := some "alpha", existingProjects := ["alpha", "beta"] } =
        "alpha" := by
  have hw := selectProject_spec "alpha"
    { pointerFile := some "old", existingProjects := ["beta"] } (by decide) (by decide)
  have hw2 := selectProject_spec "alpha"
    { pointerFile := some "old", existingProjects := ["alpha", "beta"] } (by decide) (by decide)
  exact ⟨hw.1 (by decide), (hw2.2 (by simp)).1, (hw2.2 (by simp)).2⟩

/-- Both branches of the `discover_projects` loop body produce an entry
whose `id` is the directory name. -/
theorem mkProjectEntry_id (e : DirEntry) : (mkProjectEntry e).id = e.nm := by
  cases h : e.config <;> simp [mkProjectEntry, h]

/-- **C10.** `discover_projects` does not skip a directory whose config
file exists but fails to parse: the `except` branch contributes the
fallback entry (directory name as id and name, empty description,
created and tags).  Every returned entry comes from a directory whose
`.shebang` subtree and config file exist (so only directories missing
one of those — or non-directories — are excluded), and the returned
list is ordered by directory name. -/
theorem discoverProjects_spec (entries : List DirEntry) :
    (∀ e ∈ entries, e.isDir = true → e.hasShebang = true → e.hasConfig = true →
        e.config = none →
        ({ id := e.nm, name := e.nm, description := "", created := "", tags := [] } :
          ProjectEntry) ∈ discoverProjects entries)
    ∧ (∀ p ∈ discoverProjects entries, ∃ e ∈ entries,
        e.isDir = true ∧ e.hasShebang = true ∧ e.hasConfig = true ∧ p.id = e.nm)
    ∧ List.Sorted (fun a b => a.id ≤ b.id) (discoverProjects entries) := by
  refine ⟨?_, ?_, ?_⟩
  · intro e he hdir hsh hcf hcfg
    have hmem : e ∈ (List.insertionSort dirLE entries).filter keepDir :=
      List.mem_filter.mpr ⟨(List.mem_insertionSort dirLE).mpr he,
        by simp [keepDir, hdir, hsh, hcf]⟩
    have := List.mem_map_of_mem mkProjectEntry hmem
    simpa [discoverProjects, mkProjectEntry, hcfg] using this
  · intro p hp
    obtain ⟨e, he, hpe⟩ := List.mem_map.mp hp
    obtain ⟨hes, hkeep⟩ := List.mem_filter.mp he
    have hk : (e.isDir = true ∧ e.hasShebang = true) ∧ e.hasConfig = true := by
      simpa [keepDir, Bool.and_eq_true] using hkeep
    refine ⟨e, (List.mem_insertionSort dirLE).mp hes, hk.1.1, hk.1.2, hk.2, ?_⟩
    rw [← hpe, mkProjectEntry_id]
  · have hsorted : List.Sorted dirLE (List.insertionSort dirLE entries) :=
      List.sorted_insertionSort dirLE entries
    have hfil : List.Sorted dirLE ((List.insertionSort dirLE entries).filter keepDir) :=
      List.Pairwise.sublist (List.filter_sublist _) hsorted
    exact List.Pairwise.map mkProjectEntry
      (fun a b hab => by
        simpa only [mkProjectEntry_id] using (hab : dirLE a b)) hfil

theorem discoverProjects_spec_witness :
    ({ id := "beta", name := "beta", description := "", created := "", tags := [] } :
      ProjectEntry) ∈ discoverProjects
        [ { nm := "beta", isDir := true, hasShebang := true, hasConfig := true, config := none },
          { nm := "alpha", isDir := true, hasShebang := true, hasConfig := false,
            config := none } ] :=
  (discoverProjects_spec
      [ { nm := "beta", isDir := true, hasShebang := true, hasConfig := true, config := none },
        { nm := "alpha", isDir := true, hasShebang := true, hasConfig := false,
          config := none } ]).1
    { nm := "beta", isDir := true, hasShebang := true, hasConfig := true, config := none }
    (by simp) rfl rfl rfl rfl

end Shebang
